import Mathlib

/-!
Shallow embedding of the OTU-table core of `qiime/parse.py`:
the OTU table parser (`parse_otus`), the lineage/abundance filtering
engine (`filter_otus_by_lineage`) and the sparse envs-dict builder
(`make_envs_dict`), together with proofs of the specification claims.

Python strings are modelled as Lean `String`s, Python lists as Lean
`List`s, numpy 2-D integer arrays as `NpMat` (a list of rows plus an
explicit column count, mirroring the shape information an `ndarray`
carries even when it has zero rows), Python exceptions as
`Except String`.  The in-place column assignment performed by the
rarefaction stage is additionally modelled by an explicit store of
array objects (`Store`), so that the no-mutation claim about the
input matrix is a real statement about object identity.
-/

namespace Qiime

/-- Characters removed by Python `str.strip()` with no argument. -/
def isPySpace (c : Char) : Bool :=
  c = ' ' || c = '\t' || c = '\n' || c = '\r' || c = '\x0b' || c = '\x0c'

/-- Python `s.strip()`: drop leading and trailing whitespace. -/
def pyStrip (s : String) : String :=
  String.mk (((s.toList.dropWhile isPySpace).reverse.dropWhile isPySpace).reverse)

/-- Python `s.split(c)` for a single-character separator `c`:
split on every occurrence, keeping empty parts, `[""]` on the empty string. -/
def splitCh (c : Char) : List Char → List (List Char)
  | [] => [[]]
  | a :: rest =>
    match splitCh c rest with
    | [] => [[]]
    | h :: t => if a = c then [] :: h :: t else (a :: h) :: t

/-- Python `s.split(sep)` for a two-character separator `c1 c2`,
scanning left to right without overlap. -/
def split2 (c1 c2 : Char) : List Char → List (List Char)
  | [] => [[]]
  | [a] => [[a]]
  | a :: b :: rest =>
    if a = c1 ∧ b = c2 then [] :: split2 c1 c2 rest
    else
      match split2 c1 c2 (b :: rest) with
      | [] => [[a]]
      | h :: t => (a :: h) :: t

/-- Python `line.split(c)` on `String`s, single-character separator. -/
def pySplitCh (c : Char) (s : String) : List String :=
  (splitCh c s.toList).map String.mk

/-- Python `'&&' in s`: does `"&&"` occur as a substring of `s`. -/
def pyContainsAmpAmp (s : String) : Bool :=
  (split2 '&' '&' s.toList).length > 1

/-- Python `s.split('&&')`. -/
def pySplitAmpAmp (s : String) : List String :=
  (split2 '&' '&' s.toList).map String.mk

/-- A numpy 2-D integer array: the rows, plus the column count of the
shape (which numpy retains even for an array with zero rows). -/
structure NpMat where
  rows : List (List Int)
  ncols : Nat
deriving Repr, DecidableEq

/-- Row count of the array (`shape[0]`). -/
def NpMat.nrows (m : NpMat) : Nat := m.rows.length

/-- The array is rectangular: every row has exactly `ncols` entries. -/
def NpMat.wf (m : NpMat) : Prop := ∀ r ∈ m.rows, r.length = m.ncols

instance (m : NpMat) : Decidable m.wf := by
  unfold NpMat.wf; infer_instance

/-- All entries of the array are non-negative. -/
def NpMat.nonneg (m : NpMat) : Prop := ∀ r ∈ m.rows, ∀ x ∈ r, 0 ≤ x

instance (m : NpMat) : Decidable m.nonneg := by
  unfold NpMat.nonneg; infer_instance

/-- Entry in row `i`, column `j` (0 outside the array). -/
def NpMat.entry (m : NpMat) (i j : Nat) : Int := (m.rows.getD i []).getD j 0

/-- Column `j` as a vector, one entry per row (numpy `m[:, j]`). -/
def NpMat.getCol (m : NpMat) (j : Nat) : List Int :=
  m.rows.map (fun r => r.getD j 0)

/-- Sum of column `j` (one component of numpy `m.sum(0)`). -/
def NpMat.colSum (m : NpMat) (j : Nat) : Int := (m.getCol j).sum

/-- Row selection by an index list (numpy fancy indexing `m[is]`,
which copies). -/
def NpMat.selectRows (m : NpMat) (is : List Nat) : NpMat :=
  ⟨is.map (fun i => m.rows.getD i []), m.ncols⟩

/-- Column selection by an index list (numpy `m[:, js]`, which copies). -/
def NpMat.selectCols (m : NpMat) (js : List Nat) : NpMat :=
  ⟨m.rows.map (fun r => js.map (fun j => r.getD j 0)), js.length⟩

/-- Helper for `NpMat.setCol`: replace entry `j` of each row by the
matching component of `v`, rows being numbered from `i`. -/
def setColAux (j : Nat) (v : List Int) (i : Nat) : List (List Int) → List (List Int)
  | [] => []
  | r :: rs => r.set j (v.getD i 0) :: setColAux j v (i + 1) rs

/-- In-place column assignment (numpy `m[:, j] = v`). -/
def NpMat.setCol (m : NpMat) (j : Nat) (v : List Int) : NpMat :=
  ⟨setColAux j v 0 m.rows, m.ncols⟩

/-- The literal trailing-header token recognised by the parser. -/
def consensusTag : String := "Consensus Lineage"

/-- Value of `line.strip().split('\t')[1:]` for the sample-id header row. -/
def headerIds (sampleLine : String) : List String :=
  (pySplitCh '\t' (pyStrip sampleLine)).drop 1

/-- Embedding of `parse_otus(lines, count_map_f)`: line 0 is discarded,
line 1 is the sample-id header (`raise` if it yields no tokens after the
first), the remaining lines are OTU records.  When the last header token
is exactly `"Consensus Lineage"` the last field of every data row is a
semicolon-delimited lineage (each segment stripped) and is excluded from
the counts.  With fewer than two lines the Python code raises at the
`return` (unbound `sample_ids`), modelled by the second branch. -/
def parse_otus (count_map_f : String → Int) (lines : List String) :
    Except String (List String × List String × List (List Int) × List (List String)) :=
  match lines with
  | _ :: sampleLine :: dataLines =>
    let ids0 := headerIds sampleLine
    if ids0.isEmpty then Except.error "no samples found in otu table"
    else
      let hasConsensus := ids0.getLast? == some consensusTag
      let sample_ids := if hasConsensus then ids0.dropLast else ids0
      let otu_table := dataLines.map (fun line =>
        if hasConsensus then (((pySplitCh '\t' line).drop 1).dropLast).map count_map_f
        else ((pySplitCh '\t' line).drop 1).map count_map_f)
      let otu_ids := dataLines.map (fun line => pyStrip ((pySplitCh '\t' line).getD 0 ""))
      let lineages := if hasConsensus then
          dataLines.map (fun line =>
            (pySplitCh ';' (((pySplitCh '\t' line).getLast?).getD "")).map pyStrip)
        else []
      Except.ok (sample_ids, otu_ids, otu_table, lineages)
  | _ => Except.error "sample_ids referenced before assignment"

/-- The wanted-lineage set: split on `"&&"` when present, else a
singleton (`filter_otus_by_lineage` lines 306-309). -/
def splitTerms (w : String) : List String :=
  if pyContainsAmpAmp w then pySplitAmpAmp w else [w]

/-- Truth of `set(l).intersection(wanted_lineage)`: some lineage
token of the OTU occurs among the wanted terms. -/
def keepLineage (w : String) (l : List String) : Bool :=
  l.any (fun tok => (splitTerms w).contains tok)

/-- The `good_indices` list of the lineage-selection stage: indices of
the lineages whose token set meets the wanted set, in original order. -/
def goodOtuIdx (w : String) (lineages : List (List String)) : List Nat :=
  (List.range lineages.length).filter (fun i => keepLineage w (lineages.getD i []))

/-- Stage 1 of the engine (lines 305-316): when a wanted lineage is
given, co-filter `otu_ids`, `lineages` and the matrix rows by
`good_indices`; `None` keeps everything. -/
def lineageStage (wanted : Option String) (otu_ids : List String)
    (lineages : List (List String)) (m : NpMat) :
    List String × List (List String) × NpMat :=
  match wanted with
  | none => (otu_ids, lineages, m)
  | some w =>
    ((goodOtuIdx w lineages).map (fun i => otu_ids.getD i ""),
     (goodOtuIdx w lineages).map (fun i => lineages.getD i []),
     m.selectRows (goodOtuIdx w lineages))

/-- The matrix after stage 1 only. -/
def m1Of (wanted : Option String) (lineages : List (List String)) (m : NpMat) : NpMat :=
  match wanted with
  | none => m
  | some w => m.selectRows (goodOtuIdx w lineages)

/-- The `big_enough_samples` list (line 319): the columns whose sum is at least
`min_seqs_per_sample`, in ascending order. -/
def bigEnoughCols (minSeqs : Int) (m : NpMat) : List Nat :=
  (List.range m.ncols).filter (fun j => decide (minSeqs ≤ m.colSum j))

/-- Stage 2 of the engine (lines 319-321): keep only the big-enough
columns, co-filtering `sample_ids`. -/
def minStage (minSeqs : Int) (sample_ids : List String) (m : NpMat) :
    List String × NpMat :=
  ((bigEnoughCols minSeqs m).map (fun j => sample_ids.getD j ""),
   m.selectCols (bigEnoughCols minSeqs m))

/-- The matrix after stages 1 and 2. -/
def m2Of (minSeqs : Int) (wanted : Option String) (lineages : List (List String))
    (m : NpMat) : NpMat :=
  (m1Of wanted lineages m).selectCols (bigEnoughCols minSeqs (m1Of wanted lineages m))

/-- The `too_big_samples` list (line 323): the columns whose sum strictly exceeds
`max_seqs_per_sample`, in ascending order. -/
def tooBigCols (maxSeqs : Int) (m : NpMat) : List Nat :=
  (List.range m.ncols).filter (fun j => decide (maxSeqs < m.colSum j))

/-- Stage 3 of the engine (lines 323-327): in ascending column order,
assign `subsample_fn(current column, max_seqs_per_sample)` into every
too-big column of the working matrix. -/
def maxStage (subsample_fn : List Int → Int → List Int) (maxSeqs : Int) (m : NpMat) : NpMat :=
  (tooBigCols maxSeqs m).foldl
    (fun acc j => acc.setCol j (subsample_fn (acc.getCol j) maxSeqs)) m

/-- Embedding of `filter_otus_by_lineage(sample_ids, otu_ids, otu_table,
lineages, wanted_lineage, max_seqs_per_sample, min_seqs_per_sample)`,
with the `subsample` collaborator passed explicitly.  Returns
`(sample_ids, otu_ids, otu_table, lineages)`. -/
def filter_otus_by_lineage (subsample_fn : List Int → Int → List Int)
    (sample_ids otu_ids : List String) (m : NpMat) (lineages : List (List String))
    (wanted : Option String) (maxSeqs minSeqs : Int) :
    List String × List String × NpMat × List (List String) :=
  ((minStage minSeqs sample_ids (lineageStage wanted otu_ids lineages m).2.2).1,
   (lineageStage wanted otu_ids lineages m).1,
   maxStage subsample_fn maxSeqs
     (minStage minSeqs sample_ids (lineageStage wanted otu_ids lineages m).2.2).2,
   (lineageStage wanted otu_ids lineages m).2.1)

/-- Python `dict` lookup for a dict built from an association list in
insertion order: a later binding of the same key overwrites an earlier
one, so the last matching pair wins. -/
def pyLookup {α : Type} (d : List (String × α)) (k : String) : Option α :=
  (d.reverse.find? (fun p => p.1 == k)).map (fun p => p.2)

/-- Embedding of `make_envs_dict(abund_mtx, sample_names, taxon_names)`:
after the shape check, for each taxon column emit the sample-name/count
pairs at the strictly non-zero rows of that column. -/
def make_envs_dict (abund_mtx : NpMat) (sample_names taxon_names : List String) :
    Except String (List (String × List (String × Int))) :=
  if abund_mtx.nrows ≠ sample_names.length ∨ abund_mtx.ncols ≠ taxon_names.length then
    Except.error "Shape of matrix doesn't match # samples and # taxa"
  else
    Except.ok ((List.range abund_mtx.ncols).map (fun j =>
      (taxon_names.getD j "",
       ((List.range abund_mtx.nrows).filter (fun i => decide (abund_mtx.entry i j ≠ 0))).map
         (fun i => (sample_names.getD i "", abund_mtx.entry i j)))))

/-- Dense re-expansion of an envs dict: the count recorded for taxon `t`
and sample `s`, with 0 for missing keys. -/
def expandEnvs (envs : List (String × List (String × Int))) (t s : String) : Int :=
  match pyLookup envs t with
  | none => 0
  | some d => (pyLookup d s).getD 0

/-- A store of numpy array objects, addressed by allocation index; used
to model aliasing and in-place updates. -/
abbrev Store : Type := List NpMat

/-- Read the array object at address `r`. -/
def readMat (σ : Store) (r : Nat) : NpMat := List.getD σ r ⟨[], 0⟩

/-- Allocate a fresh array object, returning the new store and address. -/
def allocMat (σ : Store) (m : NpMat) : Store × Nat :=
  (List.append σ [m], List.length σ)

/-- In-place `m[:, j] = v` on the array object at address `r`. -/
def writeColS (σ : Store) (r j : Nat) (v : List Int) : Store :=
  List.set σ r ((readMat σ r).setCol j v)

/-- Store-passing embedding of `filter_otus_by_lineage` in which the
matrix argument is an address into the store: fancy indexing at stages 1
and 2 allocates fresh objects, and the rarefaction loop of stage 3
assigns columns in place on the stage-2 object. -/
def filterStore (subsample_fn : List Int → Int → List Int)
    (σ : Store) (sample_ids otu_ids : List String) (r : Nat)
    (lineages : List (List String)) (wanted : Option String) (maxSeqs minSeqs : Int) :
    Store × List String × List String × Nat × List (List String) :=
  let s1 : Store × Nat × List String × List (List String) :=
    match wanted with
    | none => (σ, r, otu_ids, lineages)
    | some w =>
      ((allocMat σ ((readMat σ r).selectRows (goodOtuIdx w lineages))).1,
       (allocMat σ ((readMat σ r).selectRows (goodOtuIdx w lineages))).2,
       (goodOtuIdx w lineages).map (fun i => otu_ids.getD i ""),
       (goodOtuIdx w lineages).map (fun i => lineages.getD i []))
  let cs := bigEnoughCols minSeqs (readMat s1.1 s1.2.1)
  let σ2 := (allocMat s1.1 ((readMat s1.1 s1.2.1).selectCols cs)).1
  let r2 := (allocMat s1.1 ((readMat s1.1 s1.2.1).selectCols cs)).2
  let σ3 := (tooBigCols maxSeqs (readMat σ2 r2)).foldl
    (fun σ' j => writeColS σ' r2 j (subsample_fn ((readMat σ' r2).getCol j) maxSeqs)) σ2
  (σ3, cs.map (fun j => sample_ids.getD j ""), s1.2.2.1, r2, s1.2.2.2)

/-! ### General list helpers -/

theorem range_map_getD {α : Type} (l : List α) (d : α) :
    (List.range l.length).map (fun i => l.getD i d) = l := by
  induction l with
  | nil => rfl
  | cons a t ih =>
    rw [List.length_cons, List.range_succ_eq_map, List.map_cons, List.map_map]
    have h2 : ((fun i => (a :: t).getD i d) ∘ Nat.succ) = (fun i => t.getD i d) := by
      funext i
      simp [List.getD_cons_succ]
    rw [h2, ih, List.getD_cons_zero]

theorem range_map_getD_comp {α β : Type} (g : α → β) (l : List α) (d : α) :
    (List.range l.length).map (fun i => g (l.getD i d)) = l.map g := by
  have h := congrArg (List.map g) (range_map_getD l d)
  rw [List.map_map] at h
  exact h

theorem filter_range_eq (n : Nat) (p : Nat → Bool) (h : ∀ i < n, p i = true) :
    (List.range n).filter p = List.range n :=
  List.filter_eq_self.mpr (fun a ha => h a (List.mem_range.mp ha))

theorem getD_map_of_lt {α β : Type} (f : α → β) (l : List α) (i : Nat)
    (h : i < l.length) (d : β) (d' : α) : (l.map f).getD i d = f (l.getD i d') := by
  rw [List.getD_eq_getElem _ _ (by simpa using h), List.getElem_map,
    List.getD_eq_getElem _ _ h]

theorem getD_mem {α : Type} (l : List α) (i : Nat) (d : α) (h : i < l.length) :
    l.getD i d ∈ l := by
  rw [List.getD_eq_getElem l d h]
  exact List.getElem_mem h

theorem getD_set_self {α : Type} (l : List α) (n : Nat) (a d : α) (h : n < l.length) :
    (l.set n a).getD n d = a := by
  simp [List.getD_eq_getD_get?, List.get?_eq_getElem?, List.getElem?_set_self', h,
    List.getElem?_eq_getElem]

theorem getD_set_ne {α : Type} (l : List α) (n m : Nat) (a d : α) (h : n ≠ m) :
    (l.set n a).getD m d = l.getD m d := by
  simp [List.getD_eq_getD_get?, List.get?_eq_getElem?, List.getElem?_set_ne h]

/-! ### Matrix operation lemmas -/

namespace NpMat

theorem getCol_length (m : NpMat) (j : Nat) : (m.getCol j).length = m.nrows := by
  simp [NpMat.getCol, NpMat.nrows]

theorem getCol_getD (m : NpMat) (i j : Nat) :
    (m.getCol j).getD i 0 = m.entry i j := by
  by_cases h : i < m.nrows
  · rw [NpMat.entry, NpMat.getCol, getD_map_of_lt _ _ _ h _ []]
  · have h1 : m.rows.getD i ([] : List Int) = [] := by
      refine List.getD_eq_default _ _ ?_
      have : ¬ i < m.rows.length := h
      omega
    rw [List.getD_eq_default _ _ (by rw [getCol_length]; omega), NpMat.entry, h1]
    rfl

theorem selectCols_ncols (m : NpMat) (js : List Nat) : (m.selectCols js).ncols = js.length := rfl

theorem selectCols_nrows (m : NpMat) (js : List Nat) : (m.selectCols js).nrows = m.nrows := by
  simp [NpMat.selectCols, NpMat.nrows]

theorem selectCols_wf (m : NpMat) (js : List Nat) : (m.selectCols js).wf := by
  intro r hr
  rcases List.mem_map.mp hr with ⟨r₀, _, rfl⟩
  simp [NpMat.selectCols]

theorem getCol_selectCols (m : NpMat) (js : List Nat) (k : Nat) (hk : k < js.length) :
    (m.selectCols js).getCol k = m.getCol (js.getD k 0) := by
  unfold NpMat.selectCols NpMat.getCol
  rw [List.map_map]
  refine List.map_congr_left (fun r _ => ?_)
  simp only [Function.comp]
  rw [getD_map_of_lt _ _ _ hk _ 0]

theorem colSum_selectCols (m : NpMat) (js : List Nat) (k : Nat) (hk : k < js.length) :
    (m.selectCols js).colSum k = m.colSum (js.getD k 0) := by
  rw [NpMat.colSum, NpMat.colSum, getCol_selectCols m js k hk]

theorem selectCols_range (m : NpMat) (hwf : m.wf) :
    m.selectCols (List.range m.ncols) = m := by
  rcases m with ⟨rows, nc⟩
  unfold NpMat.selectCols
  simp only [NpMat.mk.injEq]
  refine ⟨?_, List.length_range nc⟩
  have h : ∀ r ∈ rows, (List.range nc).map (fun j => r.getD j 0) = r := by
    intro r hr
    have hl : r.length = nc := hwf r hr
    calc (List.range nc).map (fun j => r.getD j 0)
        = (List.range r.length).map (fun j => r.getD j 0) := by rw [hl]
      _ = r := range_map_getD r 0
  calc rows.map (fun r => (List.range nc).map (fun j => r.getD j 0))
      = rows.map id := List.map_congr_left (fun r hr => by rw [h r hr]; rfl)
    _ = rows := List.map_id rows

theorem selectRows_nrows (m : NpMat) (is : List Nat) : (m.selectRows is).nrows = is.length := by
  simp [NpMat.selectRows, NpMat.nrows]

theorem selectRows_ncols (m : NpMat) (is : List Nat) : (m.selectRows is).ncols = m.ncols := rfl

theorem selectRows_wf (m : NpMat) (is : List Nat) (hwf : m.wf)
    (his : ∀ i ∈ is, i < m.nrows) : (m.selectRows is).wf := by
  intro r hr
  rcases List.mem_map.mp hr with ⟨i, hi, rfl⟩
  exact hwf _ (getD_mem _ _ _ (his i hi))

theorem selectRows_range (m : NpMat) : m.selectRows (List.range m.nrows) = m := by
  unfold NpMat.selectRows
  rcases m with ⟨rows, nc⟩
  simp only [NpMat.mk.injEq, and_true]
  exact range_map_getD rows []

theorem nonneg_getD (m : NpMat) (hnn : m.nonneg) (r : List Int) (hr : r ∈ m.rows) (j : Nat) :
    0 ≤ r.getD j 0 := by
  by_cases h : j < r.length
  · exact hnn r hr _ (getD_mem _ _ _ h)
  · rw [List.getD_eq_default _ _ (by omega)]

theorem colSum_selectRows_le (m : NpMat) (is : List Nat) (j : Nat)
    (hnn : m.nonneg) (hsub : List.Sublist is (List.range m.nrows)) :
    (m.selectRows is).colSum j ≤ m.colSum j := by
  unfold NpMat.colSum NpMat.getCol NpMat.selectRows
  simp only [List.map_map]
  have hmap : List.Sublist (is.map (fun i => (m.rows.getD i []).getD j 0))
      ((List.range m.nrows).map (fun i => (m.rows.getD i []).getD j 0)) :=
    List.Sublist.map _ hsub
  have hrange : (List.range m.nrows).map (fun i => (m.rows.getD i []).getD j 0)
      = m.rows.map (fun r => r.getD j 0) := by
    show (List.range m.rows.length).map _ = _
    exact range_map_getD_comp (fun r => r.getD j 0) m.rows []
  have hnn' : ∀ x ∈ m.rows.map (fun r => r.getD j 0), 0 ≤ x := by
    intro x hx
    rcases List.mem_map.mp hx with ⟨r, hr, rfl⟩
    exact nonneg_getD m hnn r hr j
  rw [hrange] at hmap
  exact List.Sublist.sum_le_sum hmap hnn'

theorem setCol_nrows (m : NpMat) (j : Nat) (v : List Int) :
    (m.setCol j v).nrows = m.nrows := by
  show (Qiime.setColAux j v 0 m.rows).length = m.rows.length
  generalize m.rows = rows
  generalize 0 = i
  induction rows generalizing i with
  | nil => rfl
  | cons r rs ih => simp [Qiime.setColAux, ih]

theorem setCol_ncols (m : NpMat) (j : Nat) (v : List Int) :
    (m.setCol j v).ncols = m.ncols := rfl

theorem setCol_wf (m : NpMat) (j : Nat) (v : List Int) (hwf : m.wf) :
    (m.setCol j v).wf := by
  show ∀ r ∈ Qiime.setColAux j v 0 m.rows, r.length = m.ncols
  have h : ∀ (rows : List (List Int)) (i : Nat), (∀ r ∈ rows, r.length = m.ncols) →
      ∀ r ∈ Qiime.setColAux j v i rows, r.length = m.ncols := by
    intro rows
    induction rows with
    | nil => intro i _ r hr; cases hr
    | cons r0 rs ih =>
      intro i hall r hr
      rcases List.mem_cons.mp hr with hr | hr
      · rw [hr, List.length_set]
        exact hall r0 (List.mem_cons_self r0 rs)
      · exact ih (i + 1) (fun r' hr' => hall r' (List.mem_cons_of_mem _ hr')) r hr
  exact h m.rows 0 hwf

theorem setCol_getCol_ne (m : NpMat) (j j' : Nat) (v : List Int) (h : j ≠ j') :
    (m.setCol j v).getCol j' = m.getCol j' := by
  show (Qiime.setColAux j v 0 m.rows).map _ = m.rows.map _
  generalize m.rows = rows
  generalize 0 = i
  induction rows generalizing i with
  | nil => rfl
  | cons r rs ih =>
    simp only [Qiime.setColAux, List.map_cons]
    rw [getD_set_ne _ _ _ _ _ h, ih]

theorem setCol_getCol_self (m : NpMat) (j : Nat) (v : List Int)
    (hwf : m.wf) (hj : j < m.ncols) (hv : v.length = m.nrows) :
    (m.setCol j v).getCol j = v := by
  show (Qiime.setColAux j v 0 m.rows).map _ = v
  have key : ∀ (rows : List (List Int)) (i : Nat), (∀ r ∈ rows, r.length = m.ncols) →
      (Qiime.setColAux j v i rows).map (fun r => r.getD j 0)
        = (List.range rows.length).map (fun k => v.getD (i + k) 0) := by
    intro rows
    induction rows with
    | nil => intro i _; rfl
    | cons r rs ih =>
      intro i hall
      simp only [Qiime.setColAux, List.map_cons, List.length_cons,
        List.range_succ_eq_map, List.map_map]
      congr 1
      · rw [getD_set_self _ _ _ _ (by rw [hall r (List.mem_cons_self r rs)]; exact hj),
          Nat.add_zero]
      · rw [ih (i + 1) (fun r' hr' => hall r' (List.mem_cons_of_mem _ hr'))]
        refine List.map_congr_left (fun k _ => ?_)
        simp only [Function.comp]
        have harith : i + 1 + k = i + Nat.succ k := by omega
        rw [harith]
  rw [key m.rows 0 hwf]
  have : (List.range m.rows.length).map (fun k => v.getD (0 + k) 0)
      = (List.range v.length).map (fun k => v.getD k 0) := by
    rw [show m.rows.length = v.length from by rw [hv]; rfl]
    refine List.map_congr_left (fun k _ => ?_)
    congr 1
    omega
  rw [this, range_map_getD]

end NpMat

/-! ### Stage-level lemmas -/

theorem keepLineage_iff (w : String) (l : List String) :
    keepLineage w l = true ↔ ∃ tok ∈ l, tok ∈ splitTerms w := by
  unfold keepLineage
  rw [List.any_eq_true]
  constructor
  · rintro ⟨tok, htok, hc⟩
    exact ⟨tok, htok, List.elem_iff.mp hc⟩
  · rintro ⟨tok, htok, hc⟩
    exact ⟨tok, htok, List.elem_iff.mpr hc⟩

theorem mem_goodOtuIdx (w : String) (lineages : List (List String)) (i : Nat) :
    i ∈ goodOtuIdx w lineages ↔
      i < lineages.length ∧ keepLineage w (lineages.getD i []) = true := by
  unfold goodOtuIdx
  rw [List.mem_filter, List.mem_range]

theorem goodOtuIdx_pairwise (w : String) (lineages : List (List String)) :
    (goodOtuIdx w lineages).Pairwise (· < ·) :=
  (List.pairwise_lt_range _).sublist (List.filter_sublist _)

theorem goodOtuIdx_sublist (w : String) (lineages : List (List String)) :
    List.Sublist (goodOtuIdx w lineages) (List.range lineages.length) :=
  List.filter_sublist _

theorem mem_bigEnoughCols (minSeqs : Int) (m : NpMat) (j : Nat) :
    j ∈ bigEnoughCols minSeqs m ↔ j < m.ncols ∧ minSeqs ≤ m.colSum j := by
  unfold bigEnoughCols
  rw [List.mem_filter, List.mem_range, decide_eq_true_eq]

theorem bigEnoughCols_pairwise (minSeqs : Int) (m : NpMat) :
    (bigEnoughCols minSeqs m).Pairwise (· < ·) :=
  (List.pairwise_lt_range _).sublist (List.filter_sublist _)

theorem mem_tooBigCols (maxSeqs : Int) (m : NpMat) (j : Nat) :
    j ∈ tooBigCols maxSeqs m ↔ j < m.ncols ∧ maxSeqs < m.colSum j := by
  unfold tooBigCols
  rw [List.mem_filter, List.mem_range, decide_eq_true_eq]

theorem tooBigCols_nodup (maxSeqs : Int) (m : NpMat) : (tooBigCols maxSeqs m).Nodup :=
  (List.nodup_range _).filter _

theorem lineageStage_mat (wanted : Option String) (otu_ids : List String)
    (lineages : List (List String)) (m : NpMat) :
    (lineageStage wanted otu_ids lineages m).2.2 = m1Of wanted lineages m := by
  cases wanted <;> rfl

theorem minStage_mat (minSeqs : Int) (sample_ids : List String) (m : NpMat) :
    (minStage minSeqs sample_ids m).2 = m.selectCols (bigEnoughCols minSeqs m) := rfl

theorem filter_mat (subsample_fn : List Int → Int → List Int)
    (sample_ids otu_ids : List String) (m : NpMat) (lineages : List (List String))
    (wanted : Option String) (maxSeqs minSeqs : Int) :
    (filter_otus_by_lineage subsample_fn sample_ids otu_ids m lineages
        wanted maxSeqs minSeqs).2.2.1
      = maxStage subsample_fn maxSeqs (m2Of minSeqs wanted lineages m) := by
  unfold filter_otus_by_lineage m2Of
  rw [lineageStage_mat]
  rfl

theorem m1Of_ncols (wanted : Option String) (lineages : List (List String)) (m : NpMat) :
    (m1Of wanted lineages m).ncols = m.ncols := by
  cases wanted <;> rfl

theorem m1Of_wf (wanted : Option String) (lineages : List (List String)) (m : NpMat)
    (hwf : m.wf) (hl : lineages.length = m.nrows) : (m1Of wanted lineages m).wf := by
  cases wanted with
  | none => exact hwf
  | some w =>
    refine NpMat.selectRows_wf m _ hwf (fun i hi => ?_)
    have := (mem_goodOtuIdx w lineages i).mp hi
    omega

theorem m1Of_nonneg (wanted : Option String) (lineages : List (List String)) (m : NpMat)
    (hnn : m.nonneg) : (m1Of wanted lineages m).nonneg := by
  cases wanted with
  | none => exact hnn
  | some w =>
    intro r hr
    rcases List.mem_map.mp hr with ⟨i, _, rfl⟩
    by_cases h : i < m.rows.length
    · exact hnn _ (getD_mem _ _ _ h)
    · rw [List.getD_eq_default _ _ (by omega)]
      intro x hx
      cases hx

theorem m1Of_colSum_le (wanted : Option String) (lineages : List (List String)) (m : NpMat)
    (hnn : m.nonneg) (hl : lineages.length = m.nrows) (j : Nat) :
    (m1Of wanted lineages m).colSum j ≤ m.colSum j := by
  cases wanted with
  | none => exact le_refl _
  | some w =>
    refine NpMat.colSum_selectRows_le m _ j hnn ?_
    rw [← hl]
    exact goodOtuIdx_sublist w lineages

/-- The rarefaction fold leaves a column that is never written alone. -/
theorem foldl_setCol_notMem (subsample_fn : List Int → Int → List Int) (maxSeqs : Int)
    (ts : List Nat) (m : NpMat) (j : Nat) (hj : j ∉ ts) :
    ((ts.foldl (fun acc k => acc.setCol k (subsample_fn (acc.getCol k) maxSeqs)) m).getCol j)
      = m.getCol j := by
  induction ts generalizing m with
  | nil => rfl
  | cons k ts' ih =>
    have hne : k ≠ j := fun h => hj (h ▸ List.mem_cons_self k ts')
    have hj' : j ∉ ts' := fun h => hj (List.mem_cons_of_mem _ h)
    rw [List.foldl_cons, ih _ hj', NpMat.setCol_getCol_ne _ _ _ _ hne]

theorem foldl_setCol_ncols (subsample_fn : List Int → Int → List Int) (maxSeqs : Int)
    (ts : List Nat) (m : NpMat) :
    (ts.foldl (fun acc k => acc.setCol k (subsample_fn (acc.getCol k) maxSeqs)) m).ncols
      = m.ncols := by
  induction ts generalizing m with
  | nil => rfl
  | cons k ts' ih => rw [List.foldl_cons, ih, NpMat.setCol_ncols]

theorem foldl_setCol_nrows (subsample_fn : List Int → Int → List Int) (maxSeqs : Int)
    (ts : List Nat) (m : NpMat) :
    (ts.foldl (fun acc k => acc.setCol k (subsample_fn (acc.getCol k) maxSeqs)) m).nrows
      = m.nrows := by
  induction ts generalizing m with
  | nil => rfl
  | cons k ts' ih => rw [List.foldl_cons, ih, NpMat.setCol_nrows]

theorem foldl_setCol_wf (subsample_fn : List Int → Int → List Int) (maxSeqs : Int)
    (ts : List Nat) (m : NpMat) (hwf : m.wf) :
    (ts.foldl (fun acc k => acc.setCol k (subsample_fn (acc.getCol k) maxSeqs)) m).wf := by
  induction ts generalizing m with
  | nil => exact hwf
  | cons k ts' ih => exact ih _ (NpMat.setCol_wf _ _ _ hwf)

/-- The rarefaction fold writes each listed column exactly once, from its
value in the matrix the fold started from. -/
theorem foldl_setCol_mem (subsample_fn : List Int → Int → List Int) (maxSeqs : Int)
    (ts : List Nat) (m : NpMat) (hwf : m.wf) (hnd : ts.Nodup) (j : Nat) (hj : j ∈ ts)
    (hjc : j < m.ncols)
    (hlen : (subsample_fn (m.getCol j) maxSeqs).length = m.nrows) :
    ((ts.foldl (fun acc k => acc.setCol k (subsample_fn (acc.getCol k) maxSeqs)) m).getCol j)
      = subsample_fn (m.getCol j) maxSeqs := by
  induction ts generalizing m with
  | nil => cases hj
  | cons k ts' ih =>
    rw [List.foldl_cons]
    rcases List.mem_cons.mp hj with hjk | hjmem
    · subst hjk
      have hnotin : j ∉ ts' := (List.nodup_cons.mp hnd).1
      rw [foldl_setCol_notMem _ _ _ _ _ hnotin,
        NpMat.setCol_getCol_self _ _ _ hwf hjc hlen]
    · have hne : k ≠ j := by
        intro h
        subst h
        exact (List.nodup_cons.mp hnd).1 hjmem
      have hcol : (m.setCol k (subsample_fn (m.getCol k) maxSeqs)).getCol j = m.getCol j :=
        NpMat.setCol_getCol_ne _ _ _ _ hne
      have := ih (m.setCol k (subsample_fn (m.getCol k) maxSeqs))
        (NpMat.setCol_wf _ _ _ hwf) (List.nodup_cons.mp hnd).2 hjmem
        (by rw [NpMat.setCol_ncols]; exact hjc)
        (by rw [hcol, NpMat.setCol_nrows]; exact hlen)
      rw [this, hcol]

/-- Characterization of the rarefaction stage, column by column. -/
theorem maxStage_getCol (subsample_fn : List Int → Int → List Int) (maxSeqs : Int)
    (m : NpMat) (hwf : m.wf) (j : Nat) (hj : j < m.ncols) :
    (maxSeqs < m.colSum j →
       (subsample_fn (m.getCol j) maxSeqs).length = m.nrows →
       (maxStage subsample_fn maxSeqs m).getCol j = subsample_fn (m.getCol j) maxSeqs)
    ∧ (m.colSum j ≤ maxSeqs →
       (maxStage subsample_fn maxSeqs m).getCol j = m.getCol j) := by
  constructor
  · intro hbig hlen
    exact foldl_setCol_mem subsample_fn maxSeqs _ m hwf (tooBigCols_nodup maxSeqs m) j
      ((mem_tooBigCols maxSeqs m j).mpr ⟨hj, hbig⟩) hj hlen
  · intro hsmall
    refine foldl_setCol_notMem subsample_fn maxSeqs _ m j (fun hmem => ?_)
    have := (mem_tooBigCols maxSeqs m j).mp hmem
    omega

theorem maxStage_ncols (subsample_fn : List Int → Int → List Int) (maxSeqs : Int)
    (m : NpMat) : (maxStage subsample_fn maxSeqs m).ncols = m.ncols :=
  foldl_setCol_ncols subsample_fn maxSeqs _ m

theorem maxStage_nrows (subsample_fn : List Int → Int → List Int) (maxSeqs : Int)
    (m : NpMat) : (maxStage subsample_fn maxSeqs m).nrows = m.nrows :=
  foldl_setCol_nrows subsample_fn maxSeqs _ m

theorem maxStage_wf (subsample_fn : List Int → Int → List Int) (maxSeqs : Int)
    (m : NpMat) (hwf : m.wf) : (maxStage subsample_fn maxSeqs m).wf :=
  foldl_setCol_wf subsample_fn maxSeqs _ m hwf

/-- When no column is too big, the rarefaction stage is the identity. -/
theorem maxStage_id (subsample_fn : List Int → Int → List Int) (maxSeqs : Int)
    (m : NpMat) (h : ∀ j < m.ncols, m.colSum j ≤ maxSeqs) :
    maxStage subsample_fn maxSeqs m = m := by
  unfold maxStage
  have hempty : tooBigCols maxSeqs m = [] := by
    rw [List.eq_nil_iff_forall_not_mem]
    intro j hmem
    have := (mem_tooBigCols maxSeqs m j).mp hmem
    have := h j this.1
    omega
  rw [hempty]
  rfl

/-! ### Claim theorems -/

/-- C2: with a non-None `wanted_lineage`, the engine splits the
expression on `&&` into a set of terms (singleton when no `&&` occurs,
see `splitTerms`) and retains exactly the OTU rows whose lineage-token
set meets that set (OR over terms); the surviving row indices are
strictly increasing (original relative order), and `otu_ids` and
`lineages` are filtered with the identical index list as the matrix
rows. -/
theorem claim_C2 (subsample_fn : List Int → Int → List Int)
    (sample_ids otu_ids : List String) (m : NpMat) (lineages : List (List String))
    (w : String) (maxSeqs minSeqs : Int) :
    (∀ i, i ∈ goodOtuIdx w lineages ↔
        i < lineages.length ∧ ∃ tok ∈ lineages.getD i [], tok ∈ splitTerms w)
    ∧ (goodOtuIdx w lineages).Pairwise (· < ·)
    ∧ (filter_otus_by_lineage subsample_fn sample_ids otu_ids m lineages (some w)
          maxSeqs minSeqs).2.1
        = (goodOtuIdx w lineages).map (fun i => otu_ids.getD i "")
    ∧ (filter_otus_by_lineage subsample_fn sample_ids otu_ids m lineages (some w)
          maxSeqs minSeqs).2.2.2
        = (goodOtuIdx w lineages).map (fun i => lineages.getD i [])
    ∧ (m1Of (some w) lineages m).rows
        = (goodOtuIdx w lineages).map (fun i => m.rows.getD i []) := by
  refine ⟨fun i => ?_, goodOtuIdx_pairwise w lineages, rfl, rfl, rfl⟩
  rw [mem_goodOtuIdx, keepLineage_iff]

/-- C3: assuming the subsample collaborator returns, on every too-big
column, a vector of the right length summing to `max_seqs_per_sample`
with each entry bounded by the original, the engine replaces exactly the
surviving columns whose sum strictly exceeds `max_seqs_per_sample` by
the subsampled column (which then sums to exactly the maximum and is
entrywise at most the original), and returns every other surviving
column unchanged. -/
theorem claim_C3 (subsample_fn : List Int → Int → List Int)
    (sample_ids otu_ids : List String) (m : NpMat) (lineages : List (List String))
    (wanted : Option String) (maxSeqs minSeqs : Int)
    (hsub : ∀ j ∈ tooBigCols maxSeqs (m2Of minSeqs wanted lineages m),
      (subsample_fn ((m2Of minSeqs wanted lineages m).getCol j) maxSeqs).length
          = (m2Of minSeqs wanted lineages m).nrows
        ∧ (subsample_fn ((m2Of minSeqs wanted lineages m).getCol j) maxSeqs).sum = maxSeqs
        ∧ ∀ i < (m2Of minSeqs wanted lineages m).nrows,
            (subsample_fn ((m2Of minSeqs wanted lineages m).getCol j) maxSeqs).getD i 0
              ≤ ((m2Of minSeqs wanted lineages m).getCol j).getD i 0) :
    ∀ j < (m2Of minSeqs wanted lineages m).ncols,
      (maxSeqs < (m2Of minSeqs wanted lineages m).colSum j →
        (filter_otus_by_lineage subsample_fn sample_ids otu_ids m lineages wanted
              maxSeqs minSeqs).2.2.1.getCol j
            = subsample_fn ((m2Of minSeqs wanted lineages m).getCol j) maxSeqs
          ∧ ((filter_otus_by_lineage subsample_fn sample_ids otu_ids m lineages wanted
              maxSeqs minSeqs).2.2.1.getCol j).sum = maxSeqs
          ∧ ∀ i, ((filter_otus_by_lineage subsample_fn sample_ids otu_ids m lineages wanted
              maxSeqs minSeqs).2.2.1.getCol j).getD i 0
              ≤ ((m2Of minSeqs wanted lineages m).getCol j).getD i 0)
      ∧ ((m2Of minSeqs wanted lineages m).colSum j ≤ maxSeqs →
        (filter_otus_by_lineage subsample_fn sample_ids otu_ids m lineages wanted
            maxSeqs minSeqs).2.2.1.getCol j
          = (m2Of minSeqs wanted lineages m).getCol j) := by
  intro j hj
  have hwf2 : (m2Of minSeqs wanted lineages m).wf := NpMat.selectCols_wf _ _
  have hchar := maxStage_getCol subsample_fn maxSeqs _ hwf2 j hj
  constructor
  · intro hbig
    have hmem : j ∈ tooBigCols maxSeqs (m2Of minSeqs wanted lineages m) :=
      (mem_tooBigCols _ _ _).mpr ⟨hj, hbig⟩
    rcases hsub j hmem with ⟨hlen, hsum, hle⟩
    have hcol : (filter_otus_by_lineage subsample_fn sample_ids otu_ids m lineages wanted
        maxSeqs minSeqs).2.2.1.getCol j
        = subsample_fn ((m2Of minSeqs wanted lineages m).getCol j) maxSeqs := by
      rw [filter_mat]
      exact hchar.1 hbig hlen
    refine ⟨hcol, by rw [hcol, hsum], fun i => ?_⟩
    rw [hcol]
    by_cases hi : i < (m2Of minSeqs wanted lineages m).nrows
    · exact hle i hi
    · rw [List.getD_eq_default _ _ (by rw [hlen]; omega),
        List.getD_eq_default _ _ (by rw [NpMat.getCol_length]; omega)]
  · intro hsmall
    rw [filter_mat]
    exact hchar.2 hsmall

/-- C4: after lineage selection, the engine drops exactly the sample
columns whose sum is strictly below `min_seqs_per_sample` (so a column
summing to the minimum minus one is absent while one summing to exactly
the minimum is present), keeps the surviving columns in ascending index
order, filters `sample_ids` with the identical index list, and leaves a
surviving column untouched by the rarefaction stage whenever its sum
does not exceed `max_seqs_per_sample`. -/
theorem claim_C4 (subsample_fn : List Int → Int → List Int)
    (sample_ids otu_ids : List String) (m : NpMat) (lineages : List (List String))
    (wanted : Option String) (maxSeqs minSeqs : Int) :
    (∀ j, j ∈ bigEnoughCols minSeqs (m1Of wanted lineages m) ↔
        j < (m1Of wanted lineages m).ncols
          ∧ minSeqs ≤ (m1Of wanted lineages m).colSum j)
    ∧ (∀ j, (m1Of wanted lineages m).colSum j = minSeqs - 1 →
        j ∉ bigEnoughCols minSeqs (m1Of wanted lineages m))
    ∧ (bigEnoughCols minSeqs (m1Of wanted lineages m)).Pairwise (· < ·)
    ∧ (filter_otus_by_lineage subsample_fn sample_ids otu_ids m lineages wanted
          maxSeqs minSeqs).1
        = (bigEnoughCols minSeqs (m1Of wanted lineages m)).map
            (fun j => sample_ids.getD j "")
    ∧ m2Of minSeqs wanted lineages m
        = (m1Of wanted lineages m).selectCols
            (bigEnoughCols minSeqs (m1Of wanted lineages m))
    ∧ ∀ k < (bigEnoughCols minSeqs (m1Of wanted lineages m)).length,
        (m1Of wanted lineages m).colSum
            ((bigEnoughCols minSeqs (m1Of wanted lineages m)).getD k 0) ≤ maxSeqs →
        (filter_otus_by_lineage subsample_fn sample_ids otu_ids m lineages wanted
              maxSeqs minSeqs).2.2.1.getCol k
          = (m1Of wanted lineages m).getCol
              ((bigEnoughCols minSeqs (m1Of wanted lineages m)).getD k 0) := by
  refine ⟨fun j => mem_bigEnoughCols minSeqs _ j, fun j hsum hmem => ?_,
    bigEnoughCols_pairwise minSeqs _, ?_, rfl, fun k hk hsmall => ?_⟩
  · have := (mem_bigEnoughCols minSeqs _ j).mp hmem
    omega
  · show (minStage minSeqs sample_ids (lineageStage wanted otu_ids lineages m).2.2).1 = _
    rw [lineageStage_mat]
    rfl
  · have hwf2 : (m2Of minSeqs wanted lineages m).wf := NpMat.selectCols_wf _ _
    have hkc : k < (m2Of minSeqs wanted lineages m).ncols := by
      rw [m2Of, NpMat.selectCols_ncols]
      exact hk
    have hsum2 : (m2Of minSeqs wanted lineages m).colSum k
        = (m1Of wanted lineages m).colSum
            ((bigEnoughCols minSeqs (m1Of wanted lineages m)).getD k 0) :=
      NpMat.colSum_selectCols _ _ k hk
    have hcol2 : (m2Of minSeqs wanted lineages m).getCol k
        = (m1Of wanted lineages m).getCol
            ((bigEnoughCols minSeqs (m1Of wanted lineages m)).getD k 0) :=
      NpMat.getCol_selectCols _ _ k hk
    rw [filter_mat, (maxStage_getCol subsample_fn maxSeqs _ hwf2 k hkc).2 (by omega), hcol2]

/-- C10: with a non-None `wanted_lineage`, an OTU whose lineage token
list is empty is never selected; in particular filtering a table whose
`lineages` sequence is empty removes every OTU row: the returned
`otu_ids` and `lineages` are empty and the returned matrix has zero
rows. -/
theorem claim_C10 (subsample_fn : List Int → Int → List Int)
    (sample_ids otu_ids : List String) (m : NpMat) (lineages : List (List String))
    (w : String) (maxSeqs minSeqs : Int) :
    (∀ i, lineages.getD i [] = [] → i ∉ goodOtuIdx w lineages)
    ∧ (filter_otus_by_lineage subsample_fn sample_ids otu_ids m [] (some w)
          maxSeqs minSeqs).2.1 = []
    ∧ (filter_otus_by_lineage subsample_fn sample_ids otu_ids m [] (some w)
          maxSeqs minSeqs).2.2.1.nrows = 0
    ∧ (filter_otus_by_lineage subsample_fn sample_ids otu_ids m [] (some w)
          maxSeqs minSeqs).2.2.2 = [] := by
  refine ⟨fun i hempty hmem => ?_, rfl, ?_, rfl⟩
  · have h := ((mem_goodOtuIdx w lineages i).mp hmem).2
    rw [hempty] at h
    cases h
  · rw [filter_mat, maxStage_nrows, m2Of, NpMat.selectCols_nrows]
    rfl

/-! ### Idempotence machinery -/

theorem filter_sids (subsample_fn : List Int → Int → List Int)
    (sample_ids otu_ids : List String) (m : NpMat) (lineages : List (List String))
    (wanted : Option String) (maxSeqs minSeqs : Int) :
    (filter_otus_by_lineage subsample_fn sample_ids otu_ids m lineages wanted
        maxSeqs minSeqs).1
      = (bigEnoughCols minSeqs (m1Of wanted lineages m)).map
          (fun j => sample_ids.getD j "") := by
  show (minStage minSeqs sample_ids (lineageStage wanted otu_ids lineages m).2.2).1 = _
  rw [lineageStage_mat]
  rfl

/-- A full filtering pass is the identity on tables it leaves fixed
stage by stage: when stage 1 keeps every row and all column sums lie
between the two bounds. -/
theorem filter_fixpoint_aux (subsample_fn : List Int → Int → List Int)
    (sids₂ oids₂ : List String) (m2 : NpMat) (lins₂ : List (List String))
    (wanted : Option String) (maxSeqs minSeqs : Int)
    (hstage1 : lineageStage wanted oids₂ lins₂ m2 = (oids₂, lins₂, m2))
    (hwf2 : m2.wf) (hsids : sids₂.length = m2.ncols)
    (hmin2 : ∀ j < m2.ncols, minSeqs ≤ m2.colSum j)
    (hmax2 : ∀ j < m2.ncols, m2.colSum j ≤ maxSeqs) :
    filter_otus_by_lineage subsample_fn sids₂ oids₂ m2 lins₂ wanted maxSeqs minSeqs
      = (sids₂, oids₂, m2, lins₂) := by
  unfold filter_otus_by_lineage
  rw [hstage1]
  show ((minStage minSeqs sids₂ m2).1, oids₂,
    maxStage subsample_fn maxSeqs (minStage minSeqs sids₂ m2).2, lins₂)
      = (sids₂, oids₂, m2, lins₂)
  have hbig : bigEnoughCols minSeqs m2 = List.range m2.ncols :=
    filter_range_eq _ _ (fun j hj => decide_eq_true (hmin2 j hj))
  show ((bigEnoughCols minSeqs m2).map (fun j => sids₂.getD j ""), oids₂,
    maxStage subsample_fn maxSeqs (m2.selectCols (bigEnoughCols minSeqs m2)), lins₂)
      = (sids₂, oids₂, m2, lins₂)
  rw [hbig, NpMat.selectCols_range m2 hwf2, maxStage_id subsample_fn maxSeqs m2 hmax2,
    ← hsids, range_map_getD]

/-- C8: on a well-formed table with non-negative counts, with
pass-through depth bounds (the minimum at most every column sum and the
maximum at least every column sum), filtering twice with the same
`wanted_lineage` returns exactly the result of filtering once. -/
theorem claim_C8 (subsample_fn : List Int → Int → List Int)
    (sample_ids otu_ids : List String) (m : NpMat) (lineages : List (List String))
    (wanted : Option String) (maxSeqs minSeqs : Int)
    (hwf : m.wf) (hnn : m.nonneg)
    (hl : lineages.length = m.nrows) (hs : sample_ids.length = m.ncols)
    (hmin : ∀ j < m.ncols, minSeqs ≤ m.colSum j)
    (hmax : ∀ j < m.ncols, m.colSum j ≤ maxSeqs) :
    filter_otus_by_lineage subsample_fn
        (filter_otus_by_lineage subsample_fn sample_ids otu_ids m lineages wanted
          maxSeqs minSeqs).1
        (filter_otus_by_lineage subsample_fn sample_ids otu_ids m lineages wanted
          maxSeqs minSeqs).2.1
        (filter_otus_by_lineage subsample_fn sample_ids otu_ids m lineages wanted
          maxSeqs minSeqs).2.2.1
        (filter_otus_by_lineage subsample_fn sample_ids otu_ids m lineages wanted
          maxSeqs minSeqs).2.2.2
        wanted maxSeqs minSeqs
      = filter_otus_by_lineage subsample_fn sample_ids otu_ids m lineages wanted
          maxSeqs minSeqs := by
  have hm2wf : (m2Of minSeqs wanted lineages m).wf := NpMat.selectCols_wf _ _
  have hm2nc : (m2Of minSeqs wanted lineages m).ncols
      = (bigEnoughCols minSeqs (m1Of wanted lineages m)).length :=
    NpMat.selectCols_ncols _ _
  have hmin2 : ∀ k < (m2Of minSeqs wanted lineages m).ncols,
      minSeqs ≤ (m2Of minSeqs wanted lineages m).colSum k := by
    intro k hk
    have hk' : k < (bigEnoughCols minSeqs (m1Of wanted lineages m)).length := by
      rw [← hm2nc]; exact hk
    rw [m2Of, NpMat.colSum_selectCols _ _ k hk']
    exact ((mem_bigEnoughCols _ _ _).mp (getD_mem _ k 0 hk')).2
  have hmax2 : ∀ k < (m2Of minSeqs wanted lineages m).ncols,
      (m2Of minSeqs wanted lineages m).colSum k ≤ maxSeqs := by
    intro k hk
    have hk' : k < (bigEnoughCols minSeqs (m1Of wanted lineages m)).length := by
      rw [← hm2nc]; exact hk
    rw [m2Of, NpMat.colSum_selectCols _ _ k hk']
    have hj := ((mem_bigEnoughCols _ _ _).mp (getD_mem _ k 0 hk')).1
    calc (m1Of wanted lineages m).colSum
          ((bigEnoughCols minSeqs (m1Of wanted lineages m)).getD k 0)
        ≤ m.colSum ((bigEnoughCols minSeqs (m1Of wanted lineages m)).getD k 0) :=
          m1Of_colSum_le wanted lineages m hnn hl _
      _ ≤ maxSeqs := hmax _ (by rw [← m1Of_ncols wanted lineages m]; exact hj)
  have hmat : (filter_otus_by_lineage subsample_fn sample_ids otu_ids m lineages wanted
      maxSeqs minSeqs).2.2.1 = m2Of minSeqs wanted lineages m := by
    rw [filter_mat]
    exact maxStage_id _ _ _ hmax2
  have hsids1 : (filter_otus_by_lineage subsample_fn sample_ids otu_ids m lineages wanted
      maxSeqs minSeqs).1
      = (bigEnoughCols minSeqs (m1Of wanted lineages m)).map
          (fun j => sample_ids.getD j "") :=
    filter_sids subsample_fn sample_ids otu_ids m lineages wanted maxSeqs minSeqs
  have hsidslen : (filter_otus_by_lineage subsample_fn sample_ids otu_ids m lineages wanted
      maxSeqs minSeqs).1.length = (m2Of minSeqs wanted lineages m).ncols := by
    rw [hsids1, List.length_map, hm2nc]
  cases wanted with
  | none =>
    have hfix := filter_fixpoint_aux subsample_fn
      (filter_otus_by_lineage subsample_fn sample_ids otu_ids m lineages none
        maxSeqs minSeqs).1
      otu_ids (m2Of minSeqs none lineages m) lineages none maxSeqs minSeqs
      rfl hm2wf hsidslen hmin2 hmax2
    calc filter_otus_by_lineage subsample_fn
          (filter_otus_by_lineage subsample_fn sample_ids otu_ids m lineages none
            maxSeqs minSeqs).1
          (filter_otus_by_lineage subsample_fn sample_ids otu_ids m lineages none
            maxSeqs minSeqs).2.1
          (filter_otus_by_lineage subsample_fn sample_ids otu_ids m lineages none
            maxSeqs minSeqs).2.2.1
          (filter_otus_by_lineage subsample_fn sample_ids otu_ids m lineages none
            maxSeqs minSeqs).2.2.2
          none maxSeqs minSeqs
        = filter_otus_by_lineage subsample_fn
            (filter_otus_by_lineage subsample_fn sample_ids otu_ids m lineages none
              maxSeqs minSeqs).1
            otu_ids (m2Of minSeqs none lineages m) lineages none maxSeqs minSeqs := by
          rw [hmat]
          rfl
      _ = ((filter_otus_by_lineage subsample_fn sample_ids otu_ids m lineages none
              maxSeqs minSeqs).1, otu_ids, m2Of minSeqs none lineages m, lineages) := hfix
      _ = filter_otus_by_lineage subsample_fn sample_ids otu_ids m lineages none
            maxSeqs minSeqs := by
          rw [← hmat]
          rfl
  | some w =>
    have hlen_oids : (filter_otus_by_lineage subsample_fn sample_ids otu_ids m lineages
        (some w) maxSeqs minSeqs).2.1.length = (goodOtuIdx w lineages).length :=
      List.length_map _ _
    have hlen_lins : (filter_otus_by_lineage subsample_fn sample_ids otu_ids m lineages
        (some w) maxSeqs minSeqs).2.2.2.length = (goodOtuIdx w lineages).length :=
      List.length_map _ _
    have hm2nrows : (m2Of minSeqs (some w) lineages m).nrows
        = (goodOtuIdx w lineages).length := by
      rw [m2Of, NpMat.selectCols_nrows]
      exact NpMat.selectRows_nrows m _
    have hkeep : ∀ i < (filter_otus_by_lineage subsample_fn sample_ids otu_ids m lineages
        (some w) maxSeqs minSeqs).2.2.2.length,
        keepLineage w ((filter_otus_by_lineage subsample_fn sample_ids otu_ids m lineages
          (some w) maxSeqs minSeqs).2.2.2.getD i []) = true := by
      intro i hi
      rw [hlen_lins] at hi
      show keepLineage w (((goodOtuIdx w lineages).map
        (fun i => lineages.getD i [])).getD i []) = true
      rw [getD_map_of_lt _ _ _ hi _ 0]
      exact ((mem_goodOtuIdx w lineages _).mp (getD_mem _ i 0 hi)).2
    have hgood2 : goodOtuIdx w (filter_otus_by_lineage subsample_fn sample_ids otu_ids m
        lineages (some w) maxSeqs minSeqs).2.2.2
        = List.range (filter_otus_by_lineage subsample_fn sample_ids otu_ids m
            lineages (some w) maxSeqs minSeqs).2.2.2.length :=
      filter_range_eq _ _ (fun i hi => hkeep i hi)
    have hstage1 : lineageStage (some w)
        (filter_otus_by_lineage subsample_fn sample_ids otu_ids m lineages (some w)
          maxSeqs minSeqs).2.1
        (filter_otus_by_lineage subsample_fn sample_ids otu_ids m lineages (some w)
          maxSeqs minSeqs).2.2.2
        (m2Of minSeqs (some w) lineages m)
        = ((filter_otus_by_lineage subsample_fn sample_ids otu_ids m lineages (some w)
            maxSeqs minSeqs).2.1,
           (filter_otus_by_lineage subsample_fn sample_ids otu_ids m lineages (some w)
            maxSeqs minSeqs).2.2.2,
           m2Of minSeqs (some w) lineages m) := by
      show ((goodOtuIdx w (filter_otus_by_lineage subsample_fn sample_ids otu_ids m lineages
          (some w) maxSeqs minSeqs).2.2.2).map
            (fun i => (filter_otus_by_lineage subsample_fn sample_ids otu_ids m lineages
              (some w) maxSeqs minSeqs).2.1.getD i ""),
          (goodOtuIdx w (filter_otus_by_lineage subsample_fn sample_ids otu_ids m lineages
          (some w) maxSeqs minSeqs).2.2.2).map
            (fun i => (filter_otus_by_lineage subsample_fn sample_ids otu_ids m lineages
              (some w) maxSeqs minSeqs).2.2.2.getD i []),
          (m2Of minSeqs (some w) lineages m).selectRows
            (goodOtuIdx w (filter_otus_by_lineage subsample_fn sample_ids otu_ids m lineages
              (some w) maxSeqs minSeqs).2.2.2)) = _
      rw [hgood2]
      refine Prod.ext ?_ (Prod.ext ?_ ?_)
      · show (List.range (filter_otus_by_lineage subsample_fn sample_ids otu_ids m lineages
          (some w) maxSeqs minSeqs).2.2.2.length).map
            (fun i => (filter_otus_by_lineage subsample_fn sample_ids otu_ids m lineages
              (some w) maxSeqs minSeqs).2.1.getD i "") = _
        rw [hlen_lins, ← hlen_oids, range_map_getD]
      · show (List.range (filter_otus_by_lineage subsample_fn sample_ids otu_ids m lineages
          (some w) maxSeqs minSeqs).2.2.2.length).map
            (fun i => (filter_otus_by_lineage subsample_fn sample_ids otu_ids m lineages
              (some w) maxSeqs minSeqs).2.2.2.getD i []) = _
        rw [range_map_getD]
      · show (m2Of minSeqs (some w) lineages m).selectRows
            (List.range (filter_otus_by_lineage subsample_fn sample_ids otu_ids m lineages
              (some w) maxSeqs minSeqs).2.2.2.length) = _
        rw [hlen_lins, ← hm2nrows, NpMat.selectRows_range]
    have hfix := filter_fixpoint_aux subsample_fn
      (filter_otus_by_lineage subsample_fn sample_ids otu_ids m lineages (some w)
        maxSeqs minSeqs).1
      (filter_otus_by_lineage subsample_fn sample_ids otu_ids m lineages (some w)
        maxSeqs minSeqs).2.1
      (m2Of minSeqs (some w) lineages m)
      (filter_otus_by_lineage subsample_fn sample_ids otu_ids m lineages (some w)
        maxSeqs minSeqs).2.2.2
      (some w) maxSeqs minSeqs hstage1 hm2wf hsidslen hmin2 hmax2
    calc filter_otus_by_lineage subsample_fn
          (filter_otus_by_lineage subsample_fn sample_ids otu_ids m lineages (some w)
            maxSeqs minSeqs).1
          (filter_otus_by_lineage subsample_fn sample_ids otu_ids m lineages (some w)
            maxSeqs minSeqs).2.1
          (filter_otus_by_lineage subsample_fn sample_ids otu_ids m lineages (some w)
            maxSeqs minSeqs).2.2.1
          (filter_otus_by_lineage subsample_fn sample_ids otu_ids m lineages (some w)
            maxSeqs minSeqs).2.2.2
          (some w) maxSeqs minSeqs
        = filter_otus_by_lineage subsample_fn
            (filter_otus_by_lineage subsample_fn sample_ids otu_ids m lineages (some w)
              maxSeqs minSeqs).1
            (filter_otus_by_lineage subsample_fn sample_ids otu_ids m lineages (some w)
              maxSeqs minSeqs).2.1
            (m2Of minSeqs (some w) lineages m)
            (filter_otus_by_lineage subsample_fn sample_ids otu_ids m lineages (some w)
              maxSeqs minSeqs).2.2.2
            (some w) maxSeqs minSeqs := by
          rw [hmat]
      _ = ((filter_otus_by_lineage subsample_fn sample_ids otu_ids m lineages (some w)
              maxSeqs minSeqs).1,
           (filter_otus_by_lineage subsample_fn sample_ids otu_ids m lineages (some w)
              maxSeqs minSeqs).2.1,
           m2Of minSeqs (some w) lineages m,
           (filter_otus_by_lineage subsample_fn sample_ids otu_ids m lineages (some w)
              maxSeqs minSeqs).2.2.2) := hfix
      _ = filter_otus_by_lineage subsample_fn sample_ids otu_ids m lineages (some w)
            maxSeqs minSeqs := by
          rw [← hmat]

/-! ### Store lemmas for the no-mutation claim -/

theorem readMat_append (σ l : Store) (r : Nat) (h : r < List.length σ) :
    readMat (List.append σ l) r = readMat σ r := by
  unfold readMat
  exact List.getD_append σ l _ r h

theorem readMat_set_ne (σ : Store) (r' : Nat) (x : NpMat) (r : Nat) (h : r' ≠ r) :
    readMat (List.set σ r' x) r = readMat σ r := by
  unfold readMat
  exact getD_set_ne σ r' r x _ h

theorem foldl_writeCol_readMat (subsample_fn : List Int → Int → List Int) (maxSeqs : Int)
    (ts : List Nat) (σ : Store) (r2 r : Nat) (h : r2 ≠ r) :
    readMat (ts.foldl (fun σ' j =>
        writeColS σ' r2 j (subsample_fn ((readMat σ' r2).getCol j) maxSeqs)) σ) r
      = readMat σ r := by
  induction ts generalizing σ with
  | nil => rfl
  | cons t ts' ih =>
    rw [List.foldl_cons, ih]
    unfold writeColS
    exact readMat_set_ne _ _ _ _ h

/-- C6: the filtering engine never mutates its input: running the
store-passing engine on the array object at address `r` leaves that
object untouched (each fancy-indexing stage allocates a fresh object and
the in-place rarefaction writes only hit the stage-2 copy), and the
returned matrix is a different object. -/
theorem claim_C6 (subsample_fn : List Int → Int → List Int)
    (σ : Store) (sample_ids otu_ids : List String) (r : Nat)
    (lineages : List (List String)) (wanted : Option String) (maxSeqs minSeqs : Int)
    (hr : r < List.length σ) :
    readMat (filterStore subsample_fn σ sample_ids otu_ids r lineages wanted
        maxSeqs minSeqs).1 r
      = readMat σ r
    ∧ (filterStore subsample_fn σ sample_ids otu_ids r lineages wanted
        maxSeqs minSeqs).2.2.2.1 ≠ r := by
  cases wanted with
  | none =>
    simp only [filterStore, allocMat]
    have hne : List.length σ ≠ r := by omega
    constructor
    · rw [foldl_writeCol_readMat subsample_fn maxSeqs _ _ _ _ hne,
        readMat_append _ _ _ hr]
    · exact hne
  | some w =>
    simp only [filterStore, allocMat]
    have hlen : List.length (List.append σ
        [(readMat σ r).selectRows (goodOtuIdx w lineages)]) = List.length σ + 1 := by
      show (σ ++ [(readMat σ r).selectRows (goodOtuIdx w lineages)]).length = σ.length + 1
      rw [List.length_append]
      rfl
    have hne : List.length (List.append σ
        [(readMat σ r).selectRows (goodOtuIdx w lineages)]) ≠ r := by
      omega
    constructor
    · rw [foldl_writeCol_readMat subsample_fn maxSeqs _ _ _ _ hne,
        readMat_append _ _ _ (by omega), readMat_append _ _ _ hr]
    · exact hne

/-! ### Parser lemmas and claims -/

/-- Computation rule for `parse_otus` on at least two lines, with the
header-derived lets expanded. -/
theorem parse_otus_cons (f : String → Int) (l0 l1 : String) (ds : List String) :
    parse_otus f (l0 :: l1 :: ds)
      = if (headerIds l1).isEmpty then
          Except.error "no samples found in otu table"
        else Except.ok
          ((if ((headerIds l1).getLast? == some consensusTag) = true
              then (headerIds l1).dropLast else headerIds l1),
           ds.map (fun line => pyStrip ((pySplitCh '\t' line).getD 0 "")),
           ds.map (fun line =>
             if ((headerIds l1).getLast? == some consensusTag) = true
               then (((pySplitCh '\t' line).drop 1).dropLast).map f
               else ((pySplitCh '\t' line).drop 1).map f),
           (if ((headerIds l1).getLast? == some consensusTag) = true
              then ds.map (fun line =>
                (pySplitCh ';' (((pySplitCh '\t' line).getLast?).getD "")).map pyStrip)
              else [])) := rfl

/-- C5 (amended): the parser fails exactly when fewer than two lines are
supplied or the stripped, tab-split sample-id header row yields no
tokens after its first one; the check runs before the trailing
`"Consensus Lineage"` token is removed, and data rows never raise. -/
theorem claim_C5 (f : String → Int) (lines : List String) :
    (∃ e, parse_otus f lines = Except.error e) ↔
      lines.length < 2 ∨ headerIds (lines.getD 1 "") = [] := by
  rcases lines with _ | ⟨l0, _ | ⟨l1, ds⟩⟩
  · constructor
    · intro _
      left
      simp
    · intro _
      exact ⟨_, rfl⟩
  · constructor
    · intro _
      left
      simp
    · intro _
      exact ⟨_, rfl⟩
  · rw [parse_otus_cons]
    constructor
    · rintro ⟨e, he⟩
      by_cases hemp : (headerIds l1).isEmpty
      · right
        exact List.isEmpty_iff.mp hemp
      · rw [if_neg hemp] at he
        cases he
    · rintro (hlt | hnil)
      · exact absurd hlt (by simp)
      · have hemp : (headerIds l1).isEmpty := by
          have h1 : headerIds ((l0 :: l1 :: ds).getD 1 "") = headerIds l1 := rfl
          rw [List.isEmpty_iff, ← h1]
          exact hnil
        rw [if_pos hemp]
        exact ⟨_, rfl⟩

/-- C5 counterexample: a header consisting of `#OTU ID` followed only by
`Consensus Lineage` has zero actual sample columns, yet the parser does
not raise: the zero-sample check runs before the lineage column is
dropped, so this input returns an empty table instead of failing. -/
theorem claim_C5_cex :
    parse_otus (fun _ => (0 : Int)) ["table", "#OTU ID\tConsensus Lineage"]
      = Except.ok ([], [], [], []) := rfl

/-- C7: the parser records lineages exactly when the last token of the
sample-id header row is `"Consensus Lineage"`; in that case the last
tab-field of each data row, split on `;` with each segment stripped,
becomes that OTU's lineage and is excluded from the count columns (which
are fields 1 to second-to-last); otherwise `lineages` is empty and every
field after the OTU id is a count. -/
theorem claim_C7 (f : String → Int) (l0 l1 : String) (ds : List String)
    (sids oids : List String) (tbl : List (List Int)) (lins : List (List String))
    (h : parse_otus f (l0 :: l1 :: ds) = Except.ok (sids, oids, tbl, lins)) :
    ((headerIds l1).getLast? = some consensusTag →
       sids = (headerIds l1).dropLast
       ∧ lins.length = ds.length
       ∧ ∀ k < ds.length,
           lins.getD k []
             = (pySplitCh ';' (((pySplitCh '\t' (ds.getD k "")).getLast?).getD "")).map pyStrip
           ∧ tbl.getD k []
             = (((pySplitCh '\t' (ds.getD k "")).drop 1).dropLast).map f)
    ∧ ((headerIds l1).getLast? ≠ some consensusTag →
       sids = headerIds l1
       ∧ lins = []
       ∧ ∀ k < ds.length,
           tbl.getD k [] = ((pySplitCh '\t' (ds.getD k "")).drop 1).map f) := by
  rw [parse_otus_cons] at h
  by_cases hemp : (headerIds l1).isEmpty
  · rw [if_pos hemp] at h
    cases h
  · rw [if_neg hemp] at h
    by_cases hcons : ((headerIds l1).getLast? == some consensusTag) = true
    · simp only [hcons, if_true, Except.ok.injEq, Prod.mk.injEq] at h
      obtain ⟨hsids, _, htbl, hlins⟩ := h
      have hconsp : (headerIds l1).getLast? = some consensusTag := by
        exact beq_iff_eq.mp hcons
      constructor
      · intro _
        refine ⟨hsids.symm, ?_, fun k hk => ⟨?_, ?_⟩⟩
        · rw [← hlins, List.length_map]
        · rw [← hlins, getD_map_of_lt _ _ _ hk _ ""]
        · rw [← htbl, getD_map_of_lt _ _ _ hk _ ""]
      · intro hne
        exact absurd hconsp hne
    · simp only [hcons, Bool.false_eq_true, if_false, Except.ok.injEq, Prod.mk.injEq] at h
      obtain ⟨hsids, _, htbl, hlins⟩ := h
      have hconsp : (headerIds l1).getLast? ≠ some consensusTag := by
        intro hx
        exact hcons (beq_iff_eq.mpr hx)
      constructor
      · intro hx
        exact absurd hx hconsp
      · intro _
        refine ⟨hsids.symm, hlins.symm, fun k hk => ?_⟩
        rw [← htbl, getD_map_of_lt _ _ _ hk _ ""]

/-- C1 (amended): the row-side shape invariants always hold for parser
output (`otu_ids`, the matrix rows and, when present, `lineages` stay
aligned), and `len(sample_ids) = counts.shape[1]` holds provided every
data row carries the same number of tab-fields as the header row; the
filtering engine preserves all the invariants on any input table that
satisfies them. -/
theorem claim_C1 (f : String → Int) (l0 l1 : String) (ds : List String)
    (sids oids : List String) (tbl : List (List Int)) (lins : List (List String))
    (hp : parse_otus f (l0 :: l1 :: ds) = Except.ok (sids, oids, tbl, lins))
    (subsample_fn : List Int → Int → List Int) (sample_ids otu_ids : List String)
    (m : NpMat) (lineages : List (List String)) (wanted : Option String)
    (maxSeqs minSeqs : Int)
    (ho : otu_ids.length = m.nrows)
    (hlin : lineages = [] ∨ lineages.length = m.nrows) :
    (oids.length = tbl.length
      ∧ (lins ≠ [] → lins.length = tbl.length)
      ∧ ((∀ line ∈ ds,
            (pySplitCh '\t' line).length = (pySplitCh '\t' (pyStrip l1)).length) →
          ∀ r ∈ tbl, r.length = sids.length))
    ∧ ((filter_otus_by_lineage subsample_fn sample_ids otu_ids m lineages wanted
          maxSeqs minSeqs).1.length
        = (filter_otus_by_lineage subsample_fn sample_ids otu_ids m lineages wanted
            maxSeqs minSeqs).2.2.1.ncols
      ∧ (filter_otus_by_lineage subsample_fn sample_ids otu_ids m lineages wanted
          maxSeqs minSeqs).2.1.length
        = (filter_otus_by_lineage subsample_fn sample_ids otu_ids m lineages wanted
            maxSeqs minSeqs).2.2.1.nrows
      ∧ ((filter_otus_by_lineage subsample_fn sample_ids otu_ids m lineages wanted
            maxSeqs minSeqs).2.2.2 ≠ [] →
          (filter_otus_by_lineage subsample_fn sample_ids otu_ids m lineages wanted
            maxSeqs minSeqs).2.2.2.length
          = (filter_otus_by_lineage subsample_fn sample_ids otu_ids m lineages wanted
              maxSeqs minSeqs).2.2.1.nrows)
      ∧ (filter_otus_by_lineage subsample_fn sample_ids otu_ids m lineages wanted
          maxSeqs minSeqs).2.2.1.wf) := by
  constructor
  · rw [parse_otus_cons] at hp
    by_cases hemp : (headerIds l1).isEmpty
    · rw [if_pos hemp] at hp
      cases hp
    · rw [if_neg hemp] at hp
      have hH1 : (headerIds l1).length = (pySplitCh '\t' (pyStrip l1)).length - 1 := by
        unfold headerIds
        rw [List.length_drop]
      by_cases hcons : ((headerIds l1).getLast? == some consensusTag) = true
      · simp only [hcons, if_true, Except.ok.injEq, Prod.mk.injEq] at hp
        obtain ⟨hsids, hoids, htbl, hlins⟩ := hp
        refine ⟨by rw [← hoids, ← htbl, List.length_map, List.length_map], ?_, ?_⟩
        · intro _
          rw [← hlins, ← htbl, List.length_map, List.length_map]
        · intro hfields r hr
          rw [← htbl] at hr
          rcases List.mem_map.mp hr with ⟨line, hline, rfl⟩
          have hf := hfields line hline
          rw [← hsids, List.length_map, List.length_dropLast, List.length_dropLast,
            List.length_drop, hH1, hf]
      · simp only [hcons, Bool.false_eq_true, if_false, Except.ok.injEq,
          Prod.mk.injEq] at hp
        obtain ⟨hsids, hoids, htbl, hlins⟩ := hp
        refine ⟨by rw [← hoids, ← htbl, List.length_map, List.length_map],
          fun hne => absurd hlins.symm hne, ?_⟩
        intro hfields r hr
        rw [← htbl] at hr
        rcases List.mem_map.mp hr with ⟨line, hline, rfl⟩
        have hf := hfields line hline
        rw [← hsids, List.length_map, List.length_drop, hH1, hf]
  · have hncols : (filter_otus_by_lineage subsample_fn sample_ids otu_ids m lineages wanted
        maxSeqs minSeqs).2.2.1.ncols
        = (bigEnoughCols minSeqs (m1Of wanted lineages m)).length := by
      rw [filter_mat, maxStage_ncols, m2Of, NpMat.selectCols_ncols]
    have hnrows : (filter_otus_by_lineage subsample_fn sample_ids otu_ids m lineages wanted
        maxSeqs minSeqs).2.2.1.nrows = (m1Of wanted lineages m).nrows := by
      rw [filter_mat, maxStage_nrows, m2Of, NpMat.selectCols_nrows]
    refine ⟨?_, ?_, ?_, ?_⟩
    · rw [filter_sids, hncols, List.length_map]
    · rw [hnrows]
      cases wanted with
      | none => exact ho
      | some w =>
        show ((goodOtuIdx w lineages).map (fun i => otu_ids.getD i "")).length
          = (m.selectRows (goodOtuIdx w lineages)).nrows
        rw [List.length_map, NpMat.selectRows_nrows]
    · intro hne
      rw [hnrows]
      cases wanted with
      | none =>
        rcases hlin with hnil | hlen
        · exact absurd hnil hne
        · exact hlen
      | some w =>
        show ((goodOtuIdx w lineages).map (fun i => lineages.getD i [])).length
          = (m.selectRows (goodOtuIdx w lineages)).nrows
        rw [List.length_map, NpMat.selectRows_nrows]
    · rw [filter_mat]
      exact maxStage_wf _ _ _ (NpMat.selectCols_wf _ _)

/-- C1 counterexample: the parser does not enforce the
`len(sample_ids) = counts.shape[1]` invariant: a data row with more
count fields than the header has sample columns is returned as is, so
the claim as stated (for every parser output) is false. -/
theorem claim_C1_cex :
    ¬ (∀ (f : String → Int) (lines sids oids : List String)
          (tbl : List (List Int)) (lins : List (List String)),
        parse_otus f lines = Except.ok (sids, oids, tbl, lins) →
        ∀ r ∈ tbl, r.length = sids.length) := by
  intro hclaim
  have h := hclaim (fun _ => 0) ["t", "#OTU ID\ts1", "o1\t1\t2"] ["s1"] ["o1"]
    [[0, 0]] [] rfl [0, 0] (List.mem_singleton.mpr rfl)
  exact absurd h (by decide)

/-! ### Envs-dict lemmas and claim -/

theorem nodup_getD_inj {α : Type} (l : List α) (d : α) (hnd : l.Nodup) (i i' : Nat)
    (hi : i < l.length) (hi' : i' < l.length) (h : l.getD i d = l.getD i' d) : i = i' := by
  rw [List.getD_eq_getElem _ _ hi, List.getD_eq_getElem _ _ hi'] at h
  exact (List.Nodup.getElem_inj_iff hnd).mp h

theorem pyLookup_eq_none {α : Type} (d : List (String × α)) (k : String)
    (h : ∀ p ∈ d, p.1 ≠ k) : pyLookup d k = none := by
  unfold pyLookup
  rw [List.find?_eq_none.mpr (fun p hp => by
    simpa using h p (List.mem_reverse.mp hp))]
  rfl

theorem pyLookup_of_mem_nodup {α : Type} (d : List (String × α)) (k : String) (v : α)
    (hnd : (d.map Prod.fst).Nodup) (hmem : (k, v) ∈ d) : pyLookup d k = some v := by
  induction d with
  | nil => cases hmem
  | cons p rest ih =>
    rw [List.map_cons, List.nodup_cons] at hnd
    unfold pyLookup
    rw [List.reverse_cons, List.find?_append]
    rcases List.mem_cons.mp hmem with heq | hmem'
    · have hnone : List.find? (fun q => q.1 == k) rest.reverse = none := by
        refine List.find?_eq_none.mpr (fun q hq => ?_)
        have hq' : q ∈ rest := List.mem_reverse.mp hq
        have hne : q.1 ≠ k := by
          intro hqk
          refine hnd.1 ?_
          have hp1 : p.1 = k := by rw [← heq]
          rw [hp1, ← hqk]
          exact List.mem_map_of_mem Prod.fst hq'
        simpa using hne
      rw [hnone]
      have hfind : List.find? (fun q => q.1 == k) [p] = some p := by
        have : (p.1 == k) = true := by
          rw [← heq]
          exact beq_iff_eq.mpr rfl
        simp [List.find?, this]
      show (Option.or none (List.find? (fun q => q.1 == k) [p])).map (fun p => p.2) = some v
      rw [hfind]
      show some p.2 = some v
      rw [← heq]
    · have ihv := ih hnd.2 hmem'
      unfold pyLookup at ihv
      rcases Option.map_eq_some'.mp ihv with ⟨q, hq, hq2⟩
      rw [hq]
      show some q.2 = some v
      rw [hq2]

/-- C9: on a samples-by-taxa matrix whose labels are unique and match
the shape, the envs dict records, per taxon, exactly the sample-count
pairs with non-zero count, and re-expanding with zeros for missing keys
reconstructs the dense matrix. -/
theorem claim_C9 (m : NpMat) (sample_names taxon_names : List String)
    (envs : List (String × List (String × Int)))
    (hok : make_envs_dict m sample_names taxon_names = Except.ok envs)
    (hns : sample_names.Nodup) (hnt : taxon_names.Nodup) :
    (∀ j < taxon_names.length, ∃ d,
        pyLookup envs (taxon_names.getD j "") = some d
        ∧ ∀ p, p ∈ d ↔ ∃ i < sample_names.length,
            m.entry i j ≠ 0 ∧ p = (sample_names.getD i "", m.entry i j))
    ∧ ∀ i < sample_names.length, ∀ j < taxon_names.length,
        expandEnvs envs (taxon_names.getD j "") (sample_names.getD i "") = m.entry i j := by
  unfold make_envs_dict at hok
  by_cases hsh : m.nrows ≠ sample_names.length ∨ m.ncols ≠ taxon_names.length
  · rw [if_pos hsh] at hok
    cases hok
  · rw [if_neg hsh] at hok
    push_neg at hsh
    obtain ⟨hrows, hcols⟩ := hsh
    have henvs : envs = (List.range m.ncols).map (fun j =>
        (taxon_names.getD j "",
         ((List.range m.nrows).filter (fun i => decide (m.entry i j ≠ 0))).map
           (fun i => (sample_names.getD i "", m.entry i j)))) :=
      Except.ok.inj hok.symm
    have hfst : envs.map Prod.fst = taxon_names := by
      rw [henvs, List.map_map]
      show (List.range m.ncols).map (fun j => taxon_names.getD j "") = taxon_names
      rw [hcols]
      exact range_map_getD taxon_names ""
    have hOuter : ∀ j < taxon_names.length,
        pyLookup envs (taxon_names.getD j "")
          = some (((List.range m.nrows).filter (fun i => decide (m.entry i j ≠ 0))).map
              (fun i => (sample_names.getD i "", m.entry i j))) := by
      intro j hj
      refine pyLookup_of_mem_nodup _ _ _ (by rw [hfst]; exact hnt) ?_
      rw [henvs]
      refine List.mem_map.mpr ⟨j, List.mem_range.mpr (by omega), rfl⟩
    have hInner : ∀ j < taxon_names.length, ∀ p,
        p ∈ ((List.range m.nrows).filter (fun i => decide (m.entry i j ≠ 0))).map
              (fun i => (sample_names.getD i "", m.entry i j))
          ↔ ∃ i < sample_names.length,
              m.entry i j ≠ 0 ∧ p = (sample_names.getD i "", m.entry i j) := by
      intro j _ p
      constructor
      · intro hp
        rcases List.mem_map.mp hp with ⟨i, hi, rfl⟩
        rcases List.mem_filter.mp hi with ⟨hir, hiz⟩
        exact ⟨i, by rw [← hrows]; exact List.mem_range.mp hir,
          of_decide_eq_true hiz, rfl⟩
      · rintro ⟨i, hi, hz, rfl⟩
        refine List.mem_map.mpr ⟨i, List.mem_filter.mpr
          ⟨List.mem_range.mpr (by omega), decide_eq_true hz⟩, rfl⟩
    refine ⟨fun j hj => ⟨_, hOuter j hj, hInner j hj⟩, fun i hi j hj => ?_⟩
    unfold expandEnvs
    rw [hOuter j hj]
    show (pyLookup
        (((List.range m.nrows).filter (fun i => decide (m.entry i j ≠ 0))).map
          (fun i => (sample_names.getD i "", m.entry i j)))
        (sample_names.getD i "")).getD 0 = m.entry i j
    by_cases hz : m.entry i j = 0
    · have hnone : pyLookup
          (((List.range m.nrows).filter (fun i => decide (m.entry i j ≠ 0))).map
            (fun i => (sample_names.getD i "", m.entry i j)))
          (sample_names.getD i "") = none := by
        refine pyLookup_eq_none _ _ (fun p hp => ?_)
        rcases List.mem_map.mp hp with ⟨i', hi', rfl⟩
        rcases List.mem_filter.mp hi' with ⟨hir', hiz'⟩
        intro hname
        have hieq : i' = i := nodup_getD_inj sample_names "" hns i' i
          (by rw [← hrows]; exact List.mem_range.mp hir') hi hname
        rw [hieq] at hiz'
        exact of_decide_eq_true hiz' hz
      rw [hnone, hz]
      rfl
    · have hmem : (sample_names.getD i "", m.entry i j)
          ∈ ((List.range m.nrows).filter (fun i => decide (m.entry i j ≠ 0))).map
              (fun i => (sample_names.getD i "", m.entry i j)) :=
        List.mem_map.mpr ⟨i, List.mem_filter.mpr
          ⟨List.mem_range.mpr (by omega), decide_eq_true hz⟩, rfl⟩
      have hnd : ((((List.range m.nrows).filter (fun i => decide (m.entry i j ≠ 0))).map
          (fun i => (sample_names.getD i "", m.entry i j))).map Prod.fst).Nodup := by
        rw [List.map_map]
        refine List.Nodup.map_on ?_ ((List.nodup_range m.nrows).filter _)
        intro x hx y hy hxy
        rcases List.mem_filter.mp hx with ⟨hxr, _⟩
        rcases List.mem_filter.mp hy with ⟨hyr, _⟩
        exact nodup_getD_inj sample_names "" hns x y
          (by rw [← hrows]; exact List.mem_range.mp hxr)
          (by rw [← hrows]; exact List.mem_range.mp hyr) hxy
      rw [pyLookup_of_mem_nodup _ _ _ hnd hmem]
      rfl

/-! ### Witnesses -/

theorem claim_C1_witness :
    ((["o1"] : List String).length = ([[1]] : List (List Int)).length
      ∧ (([["Root", "Bacteria"]] : List (List String)) ≠ [] →
          ([["Root", "Bacteria"]] : List (List String)).length
            = ([[1]] : List (List Int)).length)
      ∧ ((∀ line ∈ (["o1\t4\tRoot;Bacteria"] : List String),
            (pySplitCh '\t' line).length
              = (pySplitCh '\t' (pyStrip "#OTU ID\ts1\tConsensus Lineage")).length) →
          ∀ r ∈ ([[1]] : List (List Int)), r.length = (["s1"] : List String).length))
    ∧ ((filter_otus_by_lineage (fun c _ => c) ["A"] ["x", "y"] (NpMat.mk [[1], [2]] 1)
          [] none 9 0).1.length
        = (filter_otus_by_lineage (fun c _ => c) ["A"] ["x", "y"] (NpMat.mk [[1], [2]] 1)
            [] none 9 0).2.2.1.ncols
      ∧ (filter_otus_by_lineage (fun c _ => c) ["A"] ["x", "y"] (NpMat.mk [[1], [2]] 1)
          [] none 9 0).2.1.length
        = (filter_otus_by_lineage (fun c _ => c) ["A"] ["x", "y"] (NpMat.mk [[1], [2]] 1)
            [] none 9 0).2.2.1.nrows
      ∧ ((filter_otus_by_lineage (fun c _ => c) ["A"] ["x", "y"] (NpMat.mk [[1], [2]] 1)
            [] none 9 0).2.2.2 ≠ [] →
          (filter_otus_by_lineage (fun c _ => c) ["A"] ["x", "y"] (NpMat.mk [[1], [2]] 1)
            [] none 9 0).2.2.2.length
          = (filter_otus_by_lineage (fun c _ => c) ["A"] ["x", "y"] (NpMat.mk [[1], [2]] 1)
              [] none 9 0).2.2.1.nrows)
      ∧ (filter_otus_by_lineage (fun c _ => c) ["A"] ["x", "y"] (NpMat.mk [[1], [2]] 1)
          [] none 9 0).2.2.1.wf) :=
  claim_C1 (fun _ => (1 : Int)) "t" "#OTU ID\ts1\tConsensus Lineage"
    ["o1\t4\tRoot;Bacteria"] ["s1"] ["o1"] [[1]] [["Root", "Bacteria"]] rfl
    (fun c _ => c) ["A"] ["x", "y"] (NpMat.mk [[1], [2]] 1) [] none 9 0
    (by decide) (Or.inl rfl)

theorem claim_C3_witness :
    (3 : Int) < (m2Of 0 none [] (NpMat.mk [[5], [5]] 1)).colSum 0
    ∧ (filter_otus_by_lineage (fun _ _ => [2, 1]) ["A"] ["o1", "o2"]
        (NpMat.mk [[5], [5]] 1) [] none 3 0).2.2.1.getCol 0 = [2, 1]
    ∧ ((filter_otus_by_lineage (fun _ _ => [2, 1]) ["A"] ["o1", "o2"]
        (NpMat.mk [[5], [5]] 1) [] none 3 0).2.2.1.getCol 0).sum = 3 := by
  have h := claim_C3 (fun _ _ => [2, 1]) ["A"] ["o1", "o2"] (NpMat.mk [[5], [5]] 1)
    [] none 3 0 (by decide)
  have hlt : (3 : Int) < (m2Of 0 none [] (NpMat.mk [[5], [5]] 1)).colSum 0 := by decide
  have h0 := (h 0 (by decide)).1 hlt
  exact ⟨hlt, h0.1, h0.2.1⟩

theorem claim_C6_witness :
    readMat (filterStore (fun _ _ => []) [NpMat.mk [[7]] 1] ["A"] ["o1"] 0
        [] none 0 0).1 0
      = readMat [NpMat.mk [[7]] 1] 0
    ∧ (filterStore (fun _ _ => []) [NpMat.mk [[7]] 1] ["A"] ["o1"] 0
        [] none 0 0).2.2.2.1 ≠ 0 :=
  claim_C6 (fun _ _ => []) [NpMat.mk [[7]] 1] ["A"] ["o1"] 0 [] none 0 0 (by decide)

theorem claim_C7_witness :
    ((headerIds "#OTU ID\ts1\tConsensus Lineage").getLast? = some consensusTag →
       (["s1"] : List String) = (headerIds "#OTU ID\ts1\tConsensus Lineage").dropLast
       ∧ ([["Root", "Bacteria"]] : List (List String)).length
           = (["o1\t4\tRoot; Bacteria"] : List String).length
       ∧ ∀ k < (["o1\t4\tRoot; Bacteria"] : List String).length,
           ([["Root", "Bacteria"]] : List (List String)).getD k []
             = (pySplitCh ';'
                 (((pySplitCh '\t' ((["o1\t4\tRoot; Bacteria"] : List String).getD k ""))).getLast?.getD "")).map
                 pyStrip
           ∧ ([[1]] : List (List Int)).getD k []
             = (((pySplitCh '\t'
                   ((["o1\t4\tRoot; Bacteria"] : List String).getD k "")).drop 1).dropLast).map
                 (fun _ => (1 : Int)))
    ∧ ((headerIds "#OTU ID\ts1\tConsensus Lineage").getLast? ≠ some consensusTag →
       (["s1"] : List String) = headerIds "#OTU ID\ts1\tConsensus Lineage"
       ∧ ([["Root", "Bacteria"]] : List (List String)) = []
       ∧ ∀ k < (["o1\t4\tRoot; Bacteria"] : List String).length,
           ([[1]] : List (List Int)).getD k []
             = ((pySplitCh '\t'
                 ((["o1\t4\tRoot; Bacteria"] : List String).getD k "")).drop 1).map
                 (fun _ => (1 : Int))) :=
  claim_C7 (fun _ => (1 : Int)) "t" "#OTU ID\ts1\tConsensus Lineage"
    ["o1\t4\tRoot; Bacteria"] ["s1"] ["o1"] [[1]] [["Root", "Bacteria"]] rfl

theorem claim_C8_witness :
    filter_otus_by_lineage (fun c _ => c)
        (filter_otus_by_lineage (fun c _ => c) ["A", "B"] ["o1", "o2"]
          (NpMat.mk [[1, 2], [0, 3]] 2) [["Root", "Bacteria"], ["Archaea"]]
          (some "Bacteria") 100 0).1
        (filter_otus_by_lineage (fun c _ => c) ["A", "B"] ["o1", "o2"]
          (NpMat.mk [[1, 2], [0, 3]] 2) [["Root", "Bacteria"], ["Archaea"]]
          (some "Bacteria") 100 0).2.1
        (filter_otus_by_lineage (fun c _ => c) ["A", "B"] ["o1", "o2"]
          (NpMat.mk [[1, 2], [0, 3]] 2) [["Root", "Bacteria"], ["Archaea"]]
          (some "Bacteria") 100 0).2.2.1
        (filter_otus_by_lineage (fun c _ => c) ["A", "B"] ["o1", "o2"]
          (NpMat.mk [[1, 2], [0, 3]] 2) [["Root", "Bacteria"], ["Archaea"]]
          (some "Bacteria") 100 0).2.2.2
        (some "Bacteria") 100 0
      = filter_otus_by_lineage (fun c _ => c) ["A", "B"] ["o1", "o2"]
          (NpMat.mk [[1, 2], [0, 3]] 2) [["Root", "Bacteria"], ["Archaea"]]
          (some "Bacteria") 100 0 :=
  claim_C8 (fun c _ => c) ["A", "B"] ["o1", "o2"] (NpMat.mk [[1, 2], [0, 3]] 2)
    [["Root", "Bacteria"], ["Archaea"]] (some "Bacteria") 100 0
    (by decide) (by decide) (by decide) (by decide) (by decide) (by decide)

theorem claim_C9_witness :
    (∀ j < (["t1", "t2"] : List String).length, ∃ d,
        pyLookup [("t1", [("s2", (2 : Int))]), ("t2", [("s1", 1)])]
            ((["t1", "t2"] : List String).getD j "") = some d
        ∧ ∀ p, p ∈ d ↔ ∃ i < (["s1", "s2"] : List String).length,
            (NpMat.mk [[0, 1], [2, 0]] 2).entry i j ≠ 0
            ∧ p = ((["s1", "s2"] : List String).getD i "",
                (NpMat.mk [[0, 1], [2, 0]] 2).entry i j))
    ∧ ∀ i < (["s1", "s2"] : List String).length,
        ∀ j < (["t1", "t2"] : List String).length,
        expandEnvs [("t1", [("s2", (2 : Int))]), ("t2", [("s1", 1)])]
            ((["t1", "t2"] : List String).getD j "")
            ((["s1", "s2"] : List String).getD i "")
          = (NpMat.mk [[0, 1], [2, 0]] 2).entry i j :=
  claim_C9 (NpMat.mk [[0, 1], [2, 0]] 2) ["s1", "s2"] ["t1", "t2"]
    [("t1", [("s2", 2)]), ("t2", [("s1", 1)])] rfl (by decide) (by decide)

end Qiime
